import Mathlib

/-!
Verification development for the calendar/planner backend.

The embedding models time as `Int` seconds of a naive local clock
(`datetime.fromisoformat` values are linear, so any naive timestamp is a
number of seconds; `t / 86400` is the calendar date of `t`, matching
Python floor division, and Python `//` on ints/floats is floor division,
matching `Int` `/` which is Euclidean division by the positive constant).

Fields that the source reads from loosely-typed dictionaries are modelled
as `Option Int`: `none` stands for a missing or unparseable value (the
source treats an absent key, an empty string and an unparseable string
alike wherever it guards with truthiness or a try/except; the places where
an unparseable value instead raises are modelled explicitly below).
-/

namespace CalendarPlanner

/-- Calendar date (day number) of a timestamp, as Python `ts.date()`:
floor division of the seconds value by 86400. -/
def dateOf (t : Int) : Int := t / 86400

/-- Start of the working window of the day containing `day`:
08:00 of that date (`find_free_slots` line 113 of `main.py`). -/
def dayStart (day : Int) : Int := dateOf day * 86400 + 8 * 3600

/-- End of the working window: 20:00 of the date of `day`
(`find_free_slots` line 114 of `main.py`). -/
def dayEnd (day : Int) : Int := dateOf day * 86400 + 20 * 3600

/-- Python `datetime.min` (0001-01-01 00:00), the fallback value used by
`parse_dt` in `adjust_block`; as seconds relative to 1970-01-01. -/
def dtMin : Int := -62135596800

/-- An existing block as read from the store by `find_free_slots`:
only `start_iso`, `end_iso` and `fixed` matter. `none` = the field is
missing or does not parse (such entries are skipped by the finder). -/
structure RawBlock where
  start_iso : Option Int
  end_iso : Option Int
  fixed : Bool
deriving Repr, DecidableEq

/-- The `Step` pydantic model of `main.py`. -/
structure Step where
  title : String
  duration_minutes : Int
  priority : Option Int
deriving Repr, DecidableEq

/-- The structured scheduler input (`base_info` dictionary): `date` is a
parsed date (day number), `start_time` / `end_time` are seconds after
midnight parsed from `HH:MM` strings. -/
structure BaseInfo where
  date : Option Int
  start_time : Option Int
  end_time : Option Int
  category : Option String
deriving Repr, DecidableEq

/-- A suggested block as produced by `schedule_steps_into_blocks`
(lines 215-242 of `main.py`). -/
structure Blk where
  title : String
  category : Option String
  start_iso : Int
  end_iso : Int
  duration_minutes : Int
  status : String
  fixed : Bool
deriving Repr, DecidableEq

/-- A scheduler result (`PlanPreview` pydantic model). -/
structure PlanPreview where
  steps : List Step
  suggested_blocks : List Blk
  conflicts : List String
deriving Repr, DecidableEq

/-- View of a suggested block as a stored dictionary, the shape in which
the scheduler feeds already-placed blocks back into `find_free_slots`
(`existing + suggested`, line 229 of `main.py`). -/
def Blk.toRaw (b : Blk) : RawBlock := ⟨some b.start_iso, some b.end_iso, b.fixed⟩

/-- The interval-collection phase of `find_free_slots` (lines 116-124):
keep entries whose endpoints parse and whose start date is the target
day; skip everything else. -/
def collectIntervals (day : Int) (existing : List RawBlock) : List (Int × Int) :=
  existing.filterMap fun b =>
    match b.start_iso, b.end_iso with
    | some s, some e => if dateOf s = dateOf day then some (s, e) else none
    | _, _ => none

/-- Sort key order used by `intervals.sort(key=lambda x: x[0])`. -/
def leStart (a b : Int × Int) : Prop := a.1 ≤ b.1

instance : DecidableRel leStart := fun a b => inferInstanceAs (Decidable (a.1 ≤ b.1))

instance : IsTotal (Int × Int) leStart := ⟨fun a b => le_total a.1 b.1⟩

instance : IsTrans (Int × Int) leStart := ⟨fun _ _ _ h1 h2 => le_trans h1 h2⟩

/-- The gap-walking loop of `find_free_slots` (lines 128-137), including
the trailing gap emitted after the last interval. `durSec` is
`duration_min * 60`. -/
def freeGapsGo (endDay durSec : Int) : List (Int × Int) → Int → List (Int × Int)
  | [], cursor =>
    if endDay > cursor ∧ durSec ≤ endDay - cursor then [(cursor, endDay)] else []
  | (s, e) :: rest, cursor =>
    (if s > cursor ∧ durSec ≤ s - cursor then [(cursor, s)] else [])
      ++ freeGapsGo endDay durSec rest (max cursor e)

/-- `find_free_slots(day, existing, duration_min)` of `main.py`
(lines 108-137). -/
def find_free_slots (day : Int) (existing : List RawBlock) (durMin : Int) :
    List (Int × Int) :=
  freeGapsGo (dayEnd day) (durMin * 60)
    (List.insertionSort leStart (collectIntervals day existing)) (dayStart day)

/-- `iso_for(date_str, time_str)` of `main.py` (lines 102-105): `none`
unless both parts are present. -/
def iso_for (date : Option Int) (time : Option Int) : Option Int :=
  match date, time with
  | some d, some t => some (d * 86400 + t)
  | _, _ => none

/-- Conflict message of the fixed-mode window check (line 214). -/
def windowConflictMsg : String := "Schritte passen nicht vollständig in das Zeitfenster."

/-- Conflict message of the free-mode no-gap case (line 244). -/
def noSlotConflictMsg : String := "Kein freies Zeitfenster gefunden. Vorschlag: aufteilen oder anderen Tag wählen."

/-- Test `end_iso and e > end_iso` of line 213 (a datetime is always
truthy in Python, so only presence matters). -/
def endExceeds (endIso : Option Int) (e : Int) : Bool :=
  match endIso with
  | some b => decide (b < e)
  | none => false

/-- Reference day of a scheduling call (lines 196-198): midnight of
`base_info.date` when given, else the wall-clock `now` passed in. -/
def schedDay (base : BaseInfo) (now : Int) : Int :=
  match base.date with
  | some d => d * 86400
  | none => now

/-- The per-step loop of `schedule_steps_into_blocks` (lines 209-245),
threading the cursor, the suggested blocks and the conflicts. A `some`
cursor is the fixed mode, `none` the free mode; the code never changes
mode mid-run because only the fixed branch reassigns the cursor. -/
def schedLoop (base : BaseInfo) (existing : List RawBlock) (day : Int)
    (endIso : Option Int) :
    List Step → Option Int → List Blk → List String → List Blk × List String
  | [], _, sug, conf => (sug, conf)
  | st :: rest, some c, sug, conf =>
    schedLoop base existing day endIso rest (some (c + st.duration_minutes * 60))
      (sug ++ [⟨st.title, base.category, c, c + st.duration_minutes * 60,
               st.duration_minutes, "geplant", base.start_time.isSome⟩])
      (if endExceeds endIso (c + st.duration_minutes * 60)
       then conf ++ [windowConflictMsg] else conf)
  | st :: rest, none, sug, conf =>
    match find_free_slots day (existing ++ sug.map Blk.toRaw) st.duration_minutes with
    | [] => schedLoop base existing day endIso rest none sug (conf ++ [noSlotConflictMsg])
    | (s, e) :: _ =>
      schedLoop base existing day endIso rest none
        (sug ++ [⟨st.title, base.category, s, e, st.duration_minutes, "geplant", false⟩])
        conf

/-- `schedule_steps_into_blocks(steps, base_info)` of `main.py`
(lines 192-251). The blocks read from the database and the wall clock
`datetime.now()` are explicit parameters (`existing`, `now`). -/
def schedule_steps_into_blocks (steps : List Step) (base : BaseInfo)
    (existing : List RawBlock) (now : Int) : PlanPreview :=
  let r := schedLoop base existing (schedDay base now)
    (iso_for base.date base.end_time) steps (iso_for base.date base.start_time) [] []
  ⟨steps, r.1, r.2⟩

/-- The running per-step end times of a fixed-mode run starting at `c`
(cursor plus duration, step by step). -/
def cumEnds (c : Int) : List Step → List Int
  | [] => []
  | st :: rest =>
    (c + st.duration_minutes * 60) :: cumEnds (c + st.duration_minutes * 60) rest

/-- The intervals a fixed-mode run assigns to the steps, in input order. -/
def fixedIntervals (c : Int) : List Step → List (Int × Int)
  | [] => []
  | st :: rest =>
    (c, c + st.duration_minutes * 60) :: fixedIntervals (c + st.duration_minutes * 60) rest

/-- Two suggested blocks do not overlap: they meet at most at an
endpoint. -/
def BlkDisjoint (x y : Blk) : Prop :=
  min x.end_iso y.end_iso ≤ max x.start_iso y.start_iso

/-- A suggested block does not overlap a stored entry, whenever that
entry parses and its start lies on the day with date `D`. -/
def BlkRawDisjoint (D : Int) (x : Blk) (b : RawBlock) : Prop :=
  ∀ s e : Int, b.start_iso = some s → b.end_iso = some e → dateOf s = D →
    min x.end_iso e ≤ max x.start_iso s

/-- A persisted block as read by `adjust_block` (`list(blocks.find({}))`,
all days). `id` models the Mongo `_id`; `none` endpoints stand for a
missing or unparseable field. -/
structure StoredBlock where
  id : Nat
  start_iso : Option Int
  end_iso : Option Int
  fixed : Bool
deriving Repr, DecidableEq

/-- The `BlockAdjustInput` pydantic model (`none` also covers the falsy
empty string the truthiness guards skip; `extend_minutes = some 0` is
falsy in Python and is modelled by the explicit zero test below). -/
structure AdjustInput where
  block_id : Nat
  new_start_iso : Option Int
  new_end_iso : Option Int
  extend_minutes : Option Int
deriving Repr, DecidableEq

/-- How an `adjust_block` call can fail: 404 block not found (line 359),
400 invalid times (line 372), or an uncaught `TypeError` from doing
datetime arithmetic or comparisons on a missing value (lines 369/391). -/
inductive AdjustError where
  | notFound
  | invalidTimes
  | typeError
deriving Repr, DecidableEq

/-- One `update_one` call: the block id and the new endpoints written. -/
structure Mutation where
  id : Nat
  new_start : Int
  new_end : Int
deriving Repr, DecidableEq

/-- Result of an `adjust_block` call: the updates actually written to the
store, in order, and the error it ended with, if any (the source applies
each `update_one` immediately, so updates made before a crash persist). -/
structure AdjustOutcome where
  mutations : List Mutation
  error : Option AdjustError
deriving Repr, DecidableEq

/-- The `parse_dt` helper inside `adjust_block` (lines 381-385): parse
the start, falling back to `datetime.min` on any failure. -/
def parse_dt (b : StoredBlock) : Int := b.start_iso.getD dtMin

/-- Sort order used by `others.sort(key=parse_dt)` (line 387). -/
def leStored (a b : StoredBlock) : Prop := parse_dt a ≤ parse_dt b

instance : DecidableRel leStored := fun a b =>
  inferInstanceAs (Decidable (parse_dt a ≤ parse_dt b))

instance : IsTotal StoredBlock leStored := ⟨fun a b => le_total (parse_dt a) (parse_dt b)⟩

instance : IsTrans StoredBlock leStored := ⟨fun _ _ _ h1 h2 => le_trans h1 h2⟩

/-- The cascade loop of `adjust_block` (lines 389-400). `s` is the
target's resolved start (never reassigned), `e` the advancing cursor
that begins at the target's resolved end. Reading `b["end_iso"]` is not
guarded by a try/except, so a missing or unparseable end crashes the
call there (before the same-day test), keeping the updates made so far. -/
def cascadeLoop (s day : Int) :
    List StoredBlock → Int → List Mutation × Option AdjustError
  | [], _ => ([], none)
  | b :: rest, e =>
    match b.end_iso with
    | none => ([], some AdjustError.typeError)
    | some be =>
      if dateOf (parse_dt b) ≠ day then cascadeLoop s day rest e
      else if ¬ b.fixed ∧ ¬ (be ≤ s ∨ parse_dt b ≥ e) then
        let dur := (be - parse_dt b) / 60
        let r := cascadeLoop s day rest (e + dur * 60)
        (⟨b.id, e, e + dur * 60⟩ :: r.1, r.2)
      else cascadeLoop s day rest e

/-- Start of the target after the override of line 364: the request
value if present, else the stored one (`none` = missing either way). -/
def resolvedStart (inp : AdjustInput) (target : StoredBlock) : Option Int :=
  match inp.new_start_iso with
  | some v => some v
  | none => target.start_iso

/-- End of the target after the override of line 366, before the
`extend_minutes` addition. -/
def resolvedEnd (inp : AdjustInput) (target : StoredBlock) : Option Int :=
  match inp.new_end_iso with
  | some v => some v
  | none => target.end_iso

/-- Continuation of `adjust_block` after resolving the endpoints: the
validation check of line 371, the target update of line 375, then the
cascade over all other blocks sorted by `parse_dt` (lines 377-400). -/
def adjustResolved (store : List StoredBlock) (target : StoredBlock)
    (s0 e0 : Option Int) : AdjustOutcome :=
  match s0, e0 with
  | some s, some e =>
    let others := List.insertionSort leStored (store.filter (fun b => b.id != target.id))
    let r := cascadeLoop s (dateOf s) others e
    ⟨⟨target.id, s, e⟩ :: r.1, r.2⟩
  | _, _ => ⟨[], some AdjustError.invalidTimes⟩

/-- `adjust_block(inp)` of `main.py` (lines 346-402), over an explicit
snapshot of the block store. The endpoint resolution is lines 361-372:
stored values, overridden by the request, then `extend_minutes` added to
the end (adding to a missing end is the Python `None + timedelta`
TypeError). -/
def adjust_block (inp : AdjustInput) (store : List StoredBlock) : AdjustOutcome :=
  match store.find? (fun b => b.id == inp.block_id) with
  | none => ⟨[], some AdjustError.notFound⟩
  | some target =>
    match inp.extend_minutes with
    | some m =>
      if m = 0 then adjustResolved store target (resolvedStart inp target) (resolvedEnd inp target)
      else
        match resolvedEnd inp target with
        | none => ⟨[], some AdjustError.typeError⟩
        | some e1 => adjustResolved store target (resolvedStart inp target) (some (e1 + m * 60))
    | none => adjustResolved store target (resolvedStart inp target) (resolvedEnd inp target)

/-- Decidable well-formedness of one occupancy entry relative to a day:
if it parses and lies on the day, its start is at or before its end and
at or before 20:00 of the day. -/
def goodBlockB (day : Int) (b : RawBlock) : Bool :=
  match b.start_iso, b.end_iso with
  | some s, some e =>
    !(decide (dateOf s = dateOf day)) || (decide (s ≤ e) && decide (s ≤ dayEnd day))
  | _, _ => true

/-- Both entries parse, both are movable, and the intervals properly
intersect. -/
def rawMovableOverlapB (a b : RawBlock) : Bool :=
  match a.start_iso, a.end_iso, b.start_iso, b.end_iso with
  | some sa, some ea, some sb, some eb =>
    !a.fixed && !b.fixed && decide (max sa sb < min ea eb)
  | _, _, _, _ => false

/-- Some two blocks of the list are movable and overlap. -/
def existsMovableOverlap : List RawBlock → Bool
  | [] => false
  | a :: rest => rest.any (rawMovableOverlapB a) || existsMovableOverlap rest

/-- The stored blocks whose parsed start lies on the same date as `day`. -/
def blocksOfDay (day : Int) (l : List RawBlock) : List RawBlock :=
  l.filter fun b =>
    match b.start_iso with
    | some s => decide (dateOf s = dateOf day)
    | none => false

/-! Helper facts about `dateOf`. -/

theorem dateOf_eq_of_bounds {D t : Int} (h1 : D * 86400 ≤ t)
    (h2 : t < (D + 1) * 86400) : dateOf t = D := by
  unfold dateOf; omega

theorem dateOf_bounds (t : Int) :
    dateOf t * 86400 ≤ t ∧ t < (dateOf t + 1) * 86400 := by
  unfold dateOf; omega

/-! Walk-level properties of the gap loop. -/

/-- Every emitted gap starts at or after the cursor, is nonempty, and is
at least `durSec` long. -/
theorem freeGapsGo_mem_basic (endDay durSec : Int) :
    ∀ (l : List (Int × Int)) (c : Int), ∀ g ∈ freeGapsGo endDay durSec l c,
      c ≤ g.1 ∧ g.1 < g.2 ∧ durSec ≤ g.2 - g.1
  | [], c => by
    intro g hg
    simp only [freeGapsGo] at hg
    split at hg
    · rename_i h
      simp only [List.mem_singleton] at hg
      subst hg
      refine ⟨le_refl _, ?_, ?_⟩ <;> simp <;> omega
    · simp at hg
  | (s, e) :: rest, c => by
    intro g hg
    simp only [freeGapsGo, List.mem_append] at hg
    rcases hg with hg | hg
    · split at hg
      · rename_i h
        simp only [List.mem_singleton] at hg
        subst hg
        refine ⟨le_refl _, ?_, ?_⟩ <;> simp <;> omega
      · simp at hg
    · have ih := freeGapsGo_mem_basic endDay durSec rest (max c e) g hg
      exact ⟨le_trans (le_max_left c e) ih.1, ih.2.1, ih.2.2⟩

/-- If every interval start and the window end are below `hi`, every gap
starts below `hi`. -/
theorem freeGapsGo_start_lt (endDay durSec hi : Int) (hEnd : endDay < hi) :
    ∀ (l : List (Int × Int)) (c : Int), (∀ p ∈ l, p.1 < hi) →
      ∀ g ∈ freeGapsGo endDay durSec l c, g.1 < hi
  | [], c => by
    intro _ g hg
    simp only [freeGapsGo] at hg
    split at hg
    · rename_i h
      simp only [List.mem_singleton] at hg
      subst hg
      simp; omega
    · simp at hg
  | (s, e) :: rest, c => by
    intro hl g hg
    simp only [freeGapsGo, List.mem_append] at hg
    rcases hg with hg | hg
    · split at hg
      · rename_i h
        simp only [List.mem_singleton] at hg
        subst hg
        have hs : s < hi := hl (s, e) (List.mem_cons_self _ _)
        simp; omega
      · simp at hg
    · exact freeGapsGo_start_lt endDay durSec hi hEnd rest (max c e)
        (fun p hp => hl p (List.mem_cons_of_mem _ hp)) g hg

/-- If every interval starts at or before the window end, every gap ends
at or before the window end. -/
theorem freeGapsGo_end_le (endDay durSec : Int) :
    ∀ (l : List (Int × Int)) (c : Int), (∀ p ∈ l, p.1 ≤ endDay) →
      ∀ g ∈ freeGapsGo endDay durSec l c, g.2 ≤ endDay
  | [], c => by
    intro _ g hg
    simp only [freeGapsGo] at hg
    split at hg
    · simp only [List.mem_singleton] at hg
      subst hg
      simp
    · simp at hg
  | (s, e) :: rest, c => by
    intro hl g hg
    simp only [freeGapsGo, List.mem_append] at hg
    rcases hg with hg | hg
    · split at hg
      · simp only [List.mem_singleton] at hg
        subst hg
        exact hl (s, e) (List.mem_cons_self _ _)
      · simp at hg
    · exact freeGapsGo_end_le endDay durSec rest (max c e)
        (fun p hp => hl p (List.mem_cons_of_mem _ hp)) g hg

/-- If every interval is well-formed (start at or before end), the gaps
come out in order and pairwise disjoint: each gap ends no later than any
later gap starts. -/
theorem freeGapsGo_pairwise (endDay durSec : Int) :
    ∀ (l : List (Int × Int)) (c : Int), (∀ p ∈ l, p.1 ≤ p.2) →
      (freeGapsGo endDay durSec l c).Pairwise (fun g h => g.2 ≤ h.1)
  | [], c => by
    intro _
    simp only [freeGapsGo]
    split <;> simp
  | (s, e) :: rest, c => by
    intro hl
    have hrest : ∀ p ∈ rest, p.1 ≤ p.2 :=
      fun p hp => hl p (List.mem_cons_of_mem _ hp)
    have ih := freeGapsGo_pairwise endDay durSec rest (max c e) hrest
    simp only [freeGapsGo]
    split
    · rename_i h
      simp only [List.singleton_append, List.pairwise_cons]
      refine ⟨fun g hg => ?_, ih⟩
      have hge := (freeGapsGo_mem_basic endDay durSec rest (max c e) g hg).1
      have hse : s ≤ e := hl (s, e) (List.mem_cons_self _ _)
      show s ≤ g.1
      calc s ≤ e := hse
        _ ≤ max c e := le_max_right c e
        _ ≤ g.1 := hge
    · simpa using ih

/-- Every emitted gap is disjoint from every interval of the (sorted)
occupied list: they meet at most at an endpoint. -/
theorem freeGapsGo_disjoint (endDay durSec : Int) :
    ∀ (l : List (Int × Int)) (c : Int), l.Sorted leStart →
      ∀ g ∈ freeGapsGo endDay durSec l c, ∀ p ∈ l, min g.2 p.2 ≤ max g.1 p.1
  | [], c => by
    intro _ g _ p hp
    simp at hp
  | (s, e) :: rest, c => by
    intro hsorted g hg p hp
    obtain ⟨hall, hrest⟩ := List.sorted_cons.mp hsorted
    simp only [freeGapsGo, List.mem_append] at hg
    rcases hg with hg | hg
    · split at hg
      · rename_i h
        simp only [List.mem_singleton] at hg
        subst hg
        rcases List.mem_cons.mp hp with hp | hp
        · subst hp
          show min s e ≤ max c s
          calc min s e ≤ s := min_le_left _ _
            _ ≤ max c s := le_max_right _ _
        · have hsp : s ≤ p.1 := hall p hp
          show min s p.2 ≤ max c p.1
          calc min s p.2 ≤ s := min_le_left _ _
            _ ≤ p.1 := hsp
            _ ≤ max c p.1 := le_max_right _ _
      · simp at hg
    · have hge := (freeGapsGo_mem_basic endDay durSec rest (max c e) g hg).1
      rcases List.mem_cons.mp hp with hp | hp
      · subst hp
        simp only
        calc min g.2 e ≤ e := min_le_right _ _
          _ ≤ max c e := le_max_right _ _
          _ ≤ g.1 := hge
          _ ≤ max g.1 s := le_max_left _ _
      · exact freeGapsGo_disjoint endDay durSec rest (max c e) hrest g hg p hp

/-! Finder-level properties. -/

/-- Membership in the collected occupied intervals. -/
theorem mem_collectIntervals {day : Int} {existing : List RawBlock} {p : Int × Int} :
    p ∈ collectIntervals day existing ↔
      ∃ b ∈ existing, b.start_iso = some p.1 ∧ b.end_iso = some p.2 ∧
        dateOf p.1 = dateOf day := by
  unfold collectIntervals
  simp only [List.mem_filterMap]
  constructor
  · rintro ⟨b, hb, hmatch⟩
    rcases hs : b.start_iso with _ | s <;> rcases he : b.end_iso with _ | e <;>
      rw [hs, he] at hmatch <;> simp only at hmatch
    · cases hmatch
    · cases hmatch
    · cases hmatch
    · split at hmatch
      · rename_i hd
        cases hmatch
        exact ⟨b, hb, hs, he, hd⟩
      · cases hmatch
  · rintro ⟨b, hb, hs, he, hd⟩
    refine ⟨b, hb, ?_⟩
    rw [hs, he]
    simp only
    rw [if_pos hd]

/-- Every returned slot starts in the working window and is at least the
requested length. -/
theorem ffs_mem_basic {day durMin : Int} {existing : List RawBlock} :
    ∀ g ∈ find_free_slots day existing durMin,
      dayStart day ≤ g.1 ∧ g.1 < g.2 ∧ durMin * 60 ≤ g.2 - g.1 := by
  intro g hg
  exact freeGapsGo_mem_basic _ _ _ _ g hg

/-- Every returned slot is disjoint from every parseable occupied
interval of the queried day. -/
theorem ffs_disjoint {day durMin : Int} {existing : List RawBlock} :
    ∀ g ∈ find_free_slots day existing durMin, ∀ b ∈ existing, ∀ s e : Int,
      b.start_iso = some s → b.end_iso = some e → dateOf s = dateOf day →
      min g.2 e ≤ max g.1 s := by
  intro g hg b hb s e hs he hd
  have hp : (s, e) ∈ List.insertionSort leStart (collectIntervals day existing) := by
    rw [(List.perm_insertionSort leStart _).mem_iff, mem_collectIntervals]
    exact ⟨b, hb, hs, he, hd⟩
  exact freeGapsGo_disjoint _ _ _ _ (List.sorted_insertionSort leStart _) g hg (s, e) hp

/-- Every returned slot starts on the queried day. -/
theorem ffs_on_day {day durMin : Int} {existing : List RawBlock} :
    ∀ g ∈ find_free_slots day existing durMin, dateOf g.1 = dateOf day := by
  intro g hg
  have h1 := (ffs_mem_basic g hg).1
  have h2 : g.1 < (dateOf day + 1) * 86400 := by
    refine freeGapsGo_start_lt (dayEnd day) (durMin * 60) _ ?_ _ (dayStart day) ?_ g hg
    · unfold dayEnd; omega
    · intro p hp
      rw [(List.perm_insertionSort leStart _).mem_iff, mem_collectIntervals] at hp
      obtain ⟨b, _, _, _, hd⟩ := hp
      have := (dateOf_bounds p.1).2
      omega
  refine dateOf_eq_of_bounds ?_ h2
  unfold dayStart at h1
  omega

/-! Scheduler lemmas. -/

/-- In fixed mode the loop never reads the existing blocks or the day. -/
theorem schedLoop_fixed_indep (base : BaseInfo) (ex1 ex2 : List RawBlock)
    (day1 day2 : Int) (endIso : Option Int) :
    ∀ (steps : List Step) (c : Int) (sug : List Blk) (conf : List String),
      schedLoop base ex1 day1 endIso steps (some c) sug conf
        = schedLoop base ex2 day2 endIso steps (some c) sug conf
  | [], _, _, _ => rfl
  | st :: rest, c, sug, conf => by
    simp only [schedLoop]
    exact schedLoop_fixed_indep base ex1 ex2 day1 day2 endIso rest _ _ _


/-- Fixed-mode characterization: every step gets the next back-to-back
interval, and exactly the steps whose computed end exceeds the bound
contribute one window-conflict message each. -/
theorem schedLoop_fixed_char (base : BaseInfo) (ex : List RawBlock) (day : Int)
    (endB : Int) :
    ∀ (steps : List Step) (c : Int) (sug : List Blk) (conf : List String),
      (schedLoop base ex day (some endB) steps (some c) sug conf).1.map
          (fun b => (b.start_iso, b.end_iso))
        = sug.map (fun b => (b.start_iso, b.end_iso)) ++ fixedIntervals c steps ∧
      (schedLoop base ex day (some endB) steps (some c) sug conf).2
        = conf ++ List.replicate
            ((cumEnds c steps).countP (fun t => decide (endB < t))) windowConflictMsg
  | [], c, sug, conf => by
    simp [schedLoop, cumEnds, fixedIntervals]
  | st :: rest, c, sug, conf => by
    have ih := schedLoop_fixed_char base ex day endB rest (c + st.duration_minutes * 60)
      (sug ++ [⟨st.title, base.category, c, c + st.duration_minutes * 60,
               st.duration_minutes, "geplant", base.start_time.isSome⟩])
      (if endExceeds (some endB) (c + st.duration_minutes * 60)
       then conf ++ [windowConflictMsg] else conf)
    simp only [schedLoop]
    refine ⟨?_, ?_⟩
    · rw [ih.1]
      simp [fixedIntervals]
    · rw [ih.2]
      simp only [cumEnds, List.countP_cons, endExceeds]
      by_cases h : endB < c + st.duration_minutes * 60
      · simp [h]
        rw [← List.replicate_succ, List.replicate_succ']
      · simp [h]


/-- Free-mode invariant: starting from an accumulator of blocks that are
on the day, pairwise disjoint and disjoint from the parseable same-day
existing blocks, the loop keeps all three properties. -/
theorem schedLoop_free_invariant (base : BaseInfo) (existing : List RawBlock)
    (day : Int) (endIso : Option Int) :
    ∀ (steps : List Step) (sug : List Blk) (conf : List String),
      (∀ x ∈ sug, dateOf x.start_iso = dateOf day) →
      sug.Pairwise BlkDisjoint →
      (∀ x ∈ sug, ∀ b ∈ existing, BlkRawDisjoint (dateOf day) x b) →
      (∀ x ∈ (schedLoop base existing day endIso steps none sug conf).1,
          dateOf x.start_iso = dateOf day) ∧
      (schedLoop base existing day endIso steps none sug conf).1.Pairwise BlkDisjoint ∧
      (∀ x ∈ (schedLoop base existing day endIso steps none sug conf).1,
          ∀ b ∈ existing, BlkRawDisjoint (dateOf day) x b)
  | [], sug, conf => by
    intro h1 h2 h3
    exact ⟨h1, h2, h3⟩
  | st :: rest, sug, conf => by
    intro h1 h2 h3
    rcases hres : find_free_slots day (existing ++ sug.map Blk.toRaw) st.duration_minutes
      with _ | ⟨⟨s, e⟩, tl⟩
    · simp only [schedLoop, hres]
      exact schedLoop_free_invariant base existing day endIso rest sug _ h1 h2 h3
    · have hgmem : (s, e) ∈ find_free_slots day (existing ++ sug.map Blk.toRaw)
          st.duration_minutes := by
        rw [hres]; exact List.mem_cons_self _ _
      have hday : dateOf s = dateOf day := ffs_on_day (s, e) hgmem
      have hnew_old : ∀ x ∈ sug,
          BlkDisjoint x ⟨st.title, base.category, s, e, st.duration_minutes,
            "geplant", false⟩ := by
        intro x hx
        have hxraw : Blk.toRaw x ∈ existing ++ sug.map Blk.toRaw :=
          List.mem_append_right _ (List.mem_map_of_mem Blk.toRaw hx)
        have := ffs_disjoint (s, e) hgmem (Blk.toRaw x) hxraw x.start_iso x.end_iso
          rfl rfl (h1 x hx)
        unfold BlkDisjoint
        simp only at this ⊢
        omega
      have hnew_ex : ∀ b ∈ existing,
          BlkRawDisjoint (dateOf day) ⟨st.title, base.category, s, e,
            st.duration_minutes, "geplant", false⟩ b := by
        intro b hb sb eb hsb heb hdb
        have := ffs_disjoint (s, e) hgmem b (List.mem_append_left _ hb) sb eb hsb heb hdb
        simpa using this
      simp only [schedLoop, hres]
      refine schedLoop_free_invariant base existing day endIso rest _ _ ?_ ?_ ?_
      · intro x hx
        rcases List.mem_append.mp hx with hx | hx
        · exact h1 x hx
        · simp only [List.mem_singleton] at hx
          subst hx
          exact hday
      · refine List.pairwise_append.mpr ⟨h2, List.pairwise_singleton _ _, ?_⟩
        intro x hx y hy
        simp only [List.mem_singleton] at hy
        subst hy
        exact hnew_old x hx
      · intro x hx b hb
        rcases List.mem_append.mp hx with hx | hx
        · exact h3 x hx b hb
        · simp only [List.mem_singleton] at hx
          subst hx
          exact hnew_ex b hb


/-! Reflow lemmas. -/

/-- Every cascade update originates in a movable block of the processed
list, and its new length is the block's original parsed length rounded
down to whole minutes. -/
theorem cascadeLoop_sound (s day : Int) :
    ∀ (l : List StoredBlock) (e : Int), ∀ m ∈ (cascadeLoop s day l e).1,
      ∃ c ∈ l, c.fixed = false ∧ m.id = c.id ∧ ∃ be, c.end_iso = some be ∧
        m.new_end - m.new_start = ((be - parse_dt c) / 60) * 60
  | [], e => by
    intro m hm
    simp [cascadeLoop] at hm
  | b :: rest, e => by
    intro m hm
    rcases hbe : b.end_iso with _ | be
    · simp [cascadeLoop, hbe] at hm
    · simp only [cascadeLoop, hbe] at hm
      by_cases hday : dateOf (parse_dt b) ≠ day
      · rw [if_pos hday] at hm
        obtain ⟨c, hc, h⟩ := cascadeLoop_sound s day rest e m hm
        exact ⟨c, List.mem_cons_of_mem _ hc, h⟩
      · rw [if_neg hday] at hm
        by_cases hcas : ¬ b.fixed ∧ ¬ (be ≤ s ∨ parse_dt b ≥ e)
        · rw [if_pos hcas] at hm
          simp only [List.mem_cons] at hm
          rcases hm with hm | hm
          · subst hm
            refine ⟨b, List.mem_cons_self _ _, ?_, rfl, be, hbe, ?_⟩
            · simpa using hcas.1
            · simp only
              omega
          · obtain ⟨c, hc, h⟩ :=
              cascadeLoop_sound s day rest (e + (be - parse_dt b) / 60 * 60) m hm
            exact ⟨c, List.mem_cons_of_mem _ hc, h⟩
        · rw [if_neg hcas] at hm
          obtain ⟨c, hc, h⟩ := cascadeLoop_sound s day rest e m hm
          exact ⟨c, List.mem_cons_of_mem _ hc, h⟩

/-- Mutations of a resolved adjust call: the target update plus cascades
of movable non-target blocks. -/
theorem adjustResolved_mutations (store : List StoredBlock) (target : StoredBlock)
    (s0 e0 : Option Int) :
    ∀ m ∈ (adjustResolved store target s0 e0).mutations,
      m.id = target.id ∨
      ∃ c ∈ store, c.fixed = false ∧ c.id ≠ target.id ∧ m.id = c.id ∧
        ∃ be, c.end_iso = some be ∧
          m.new_end - m.new_start = ((be - parse_dt c) / 60) * 60 := by
  intro m hm
  rcases s0 with _ | s
  · simp [adjustResolved] at hm
  rcases e0 with _ | e
  · simp [adjustResolved] at hm
  simp only [adjustResolved, List.mem_cons] at hm
  rcases hm with hm | hm
  · left
    rw [hm]
  · right
    obtain ⟨c, hc, hfix, hid, be, hbe, hlen⟩ :=
      cascadeLoop_sound s (dateOf s) _ e m hm
    rw [(List.perm_insertionSort leStored _).mem_iff, List.mem_filter] at hc
    refine ⟨c, hc.1, hfix, ?_, hid, be, hbe, hlen⟩
    simpa using hc.2

/-- Any mutation written by `adjust_block` is either the explicit target
update (its id is the requested block id) or a cascade of a movable
non-target block whose new length is its original length rounded down to
whole minutes. -/
theorem adjust_block_mutations (inp : AdjustInput) (store : List StoredBlock) :
    ∀ m ∈ (adjust_block inp store).mutations,
      m.id = inp.block_id ∨
      ∃ c ∈ store, c.fixed = false ∧ c.id ≠ inp.block_id ∧ m.id = c.id ∧
        ∃ be, c.end_iso = some be ∧
          m.new_end - m.new_start = ((be - parse_dt c) / 60) * 60 := by
  intro m hm
  rcases hfind : store.find? (fun b => b.id == inp.block_id) with _ | target
  · simp [adjust_block, hfind] at hm
  · have htid : target.id = inp.block_id := by
      have := List.find?_some hfind
      simpa using this
    rw [← htid]
    simp only [adjust_block, hfind] at hm
    split at hm
    · split at hm
      · exact adjustResolved_mutations store target _ _ m hm
      · split at hm
        · simp at hm
        · exact adjustResolved_mutations store target _ _ m hm
    · exact adjustResolved_mutations store target _ _ m hm

/-- C4 (amended): a reflow request whose resolution — stored start/end,
overridden by the request, then extended — is missing an endpoint writes
no mutation and is rejected; the rejection is the validation error,
except that a nonzero `extend_minutes` applied to a missing end fails
earlier with the uncaught TypeError instead. -/
theorem C4_missing_endpoint_rejected (inp : AdjustInput) (store : List StoredBlock)
    (target : StoredBlock)
    (hfind : store.find? (fun b => b.id == inp.block_id) = some target)
    (hmiss : resolvedStart inp target = none ∨ resolvedEnd inp target = none) :
    (adjust_block inp store).mutations = [] ∧
      ((adjust_block inp store).error = some AdjustError.invalidTimes ∨
       (adjust_block inp store).error = some AdjustError.typeError) := by
  have hres : ∀ e0 : Option Int, resolvedStart inp target = none →
      adjustResolved store target (resolvedStart inp target) e0
        = ⟨[], some AdjustError.invalidTimes⟩ := by
    intro e0 hs
    rw [hs]
    rcases e0 with _ | e <;> simp [adjustResolved]
  have hboth : resolvedEnd inp target = none →
      (adjustResolved store target (resolvedStart inp target)
          (resolvedEnd inp target)).mutations = [] ∧
        ((adjustResolved store target (resolvedStart inp target)
            (resolvedEnd inp target)).error = some AdjustError.invalidTimes ∨
         (adjustResolved store target (resolvedStart inp target)
            (resolvedEnd inp target)).error = some AdjustError.typeError) := by
    intro he
    rcases hs0 : resolvedStart inp target with _ | s
    · rw [he]
      exact ⟨rfl, Or.inl rfl⟩
    · rw [he]
      exact ⟨rfl, Or.inl rfl⟩
  simp only [adjust_block, hfind]
  split
  · split
    · rcases hmiss with hs | he
      · rw [hres _ hs]
        exact ⟨rfl, Or.inl rfl⟩
      · exact hboth he
    · split
      · exact ⟨rfl, Or.inr rfl⟩
      · rename_i e1 hre
        rcases hmiss with hs | he
        · rw [hres _ hs]
          exact ⟨rfl, Or.inl rfl⟩
        · rw [he] at hre
          cases hre
  · rcases hmiss with hs | he
    · rw [hres _ hs]
      exact ⟨rfl, Or.inl rfl⟩
    · exact hboth he

/-! Claim theorems. -/

/-- C1: the claim requires `duration_minutes` to equal `end - start` in
minutes for every suggested block in either mode. Evaluating the code at
the failing input (free mode, date 1970-01-01, one 30-minute step, no
existing blocks) shows the block stores the entire 08:00-20:00 gap as
its interval while keeping `duration_minutes = 30`: the interval is 720
minutes long, not 30. -/
theorem C1_free_mode_duration_mismatch :
    (schedule_steps_into_blocks [⟨"a", 30, none⟩] ⟨some 0, none, none, none⟩
        [] 0).suggested_blocks
      = [⟨"a", none, 28800, 72000, 30, "geplant", false⟩] ∧
    ((72000 : Int) - 28800) / 60 = 720 ∧ (720 : Int) ≠ 30 :=
  ⟨by decide, by decide, by decide⟩

/-- C2 counterexample: the claim as stated fails. With an occupied block
21:00-22:00 on the queried day, the single returned gap (08:00, 21:00)
ends after 20:00, so it does not lie within the working window; with a
block whose parsed end 09:00 precedes its start 10:00, the two returned
gaps (08:00, 10:00) and (09:00, 20:00) properly overlap, so they are
neither pairwise disjoint nor ordered end-before-start. -/
theorem C2_counterexample :
    (find_free_slots 0 [⟨some 75600, some 79200, false⟩] 60 = [(28800, 75600)] ∧
      dayEnd 0 < 75600) ∧
    (find_free_slots 0 [⟨some 36000, some 32400, false⟩] 60
        = [(28800, 36000), (32400, 72000)] ∧
      max (28800 : Int) 32400 < min 36000 72000) :=
  ⟨⟨by decide, by decide⟩, ⟨by decide, by decide⟩⟩

/-- C2 (amended): for every day, every positive duration and every list
of occupied entries whose parseable same-day intervals are well-formed
(start at or before end and start at or before 20:00 of the day), the
returned gaps are pairwise disjoint and in ascending order (each gap
ends at or before the next starts and is nonempty), each gap is at least
`duration_minutes` long, and each lies within [08:00, 20:00) of the
queried day. -/
theorem C2_find_free_slots_guarantees (day : Int) (existing : List RawBlock)
    (durMin : Int) (_hdur : 0 < durMin)
    (hgood : ∀ b ∈ existing, goodBlockB day b = true) :
    (find_free_slots day existing durMin).Pairwise (fun g h => g.2 ≤ h.1) ∧
    ∀ g ∈ find_free_slots day existing durMin,
      dayStart day ≤ g.1 ∧ g.1 < g.2 ∧ durMin * 60 ≤ g.2 - g.1 ∧ g.2 ≤ dayEnd day := by
  have hcol : ∀ p ∈ List.insertionSort leStart (collectIntervals day existing),
      p.1 ≤ p.2 ∧ p.1 ≤ dayEnd day := by
    intro p hp
    rw [(List.perm_insertionSort leStart _).mem_iff, mem_collectIntervals] at hp
    obtain ⟨b, hb, hs, he, hd⟩ := hp
    have hgb := hgood b hb
    rw [goodBlockB.eq_def, hs, he] at hgb
    simpa [hd] using hgb
  constructor
  · exact freeGapsGo_pairwise (dayEnd day) (durMin * 60)
      (List.insertionSort leStart (collectIntervals day existing)) (dayStart day)
      (fun p hp => (hcol p hp).1)
  · intro g hg
    have h1 := ffs_mem_basic g hg
    have h2 := freeGapsGo_end_le (dayEnd day) (durMin * 60)
      (List.insertionSort leStart (collectIntervals day existing)) (dayStart day)
      (fun p hp => (hcol p hp).2) g hg
    exact ⟨h1.1, h1.2.1, h1.2.2, h2⟩

/-- C2 witness: Example 1 of the design (one movable block 10:00-11:00,
90-minute request) satisfies the hypotheses, and the guarantees hold for
it. -/
theorem C2_witness :
    ((0 : Int) < 90 ∧
      ∀ b ∈ [(⟨some 36000, some 39600, false⟩ : RawBlock)], goodBlockB 0 b = true) ∧
    ((find_free_slots 0 [⟨some 36000, some 39600, false⟩] 90).Pairwise
        (fun g h => g.2 ≤ h.1) ∧
      ∀ g ∈ find_free_slots 0 [⟨some 36000, some 39600, false⟩] 90,
        dayStart 0 ≤ g.1 ∧ g.1 < g.2 ∧ 90 * 60 ≤ g.2 - g.1 ∧ g.2 ≤ dayEnd 0) :=
  ⟨⟨by decide, by decide⟩,
   C2_find_free_slots_guarantees 0 [⟨some 36000, some 39600, false⟩] 90
     (by decide) (by decide)⟩

/-- C3 counterexample: the claim as stated fails, because the scheduler
never repairs overlaps that already exist among the pre-existing blocks:
with two overlapping movable blocks 09:00-10:00 and 09:30-10:30 already
stored, a free-mode run places its step elsewhere, and the combined set
of suggested plus same-day pre-existing blocks still contains two
overlapping movable intervals. -/
theorem C3_counterexample :
    existsMovableOverlap
      ((schedule_steps_into_blocks [⟨"s", 60, none⟩] ⟨some 0, none, none, none⟩
          [⟨some 32400, some 36000, false⟩, ⟨some 34200, some 37800, false⟩]
          0).suggested_blocks.map Blk.toRaw
        ++ blocksOfDay 0 [⟨some 32400, some 36000, false⟩,
             ⟨some 34200, some 37800, false⟩])
      = true := by decide

/-- C3 (amended): after a free-mode run, the suggested blocks are
pairwise non-overlapping and no suggested block overlaps any parseable
pre-existing block of the scheduling day; overlaps already present among
the pre-existing blocks themselves are untouched. -/
theorem C3_free_mode_no_new_overlap (steps : List Step) (base : BaseInfo)
    (existing : List RawBlock) (now : Int)
    (hfree : iso_for base.date base.start_time = none) :
    (schedule_steps_into_blocks steps base existing now).suggested_blocks.Pairwise
        BlkDisjoint ∧
    ∀ x ∈ (schedule_steps_into_blocks steps base existing now).suggested_blocks,
      ∀ b ∈ existing, BlkRawDisjoint (dateOf (schedDay base now)) x b := by
  have h := schedLoop_free_invariant base existing (schedDay base now)
    (iso_for base.date base.end_time) steps [] [] (by simp) (by simp) (by simp)
  simp only [schedule_steps_into_blocks, hfree]
  exact ⟨h.2.1, h.2.2⟩

/-- C3 witness: a free-mode run over one movable block 09:00-10:00 with
one 60-minute step satisfies the hypothesis, and the amended claim holds
for it. -/
theorem C3_witness :
    iso_for (some 0) none = none ∧
    ((schedule_steps_into_blocks [⟨"s", 60, none⟩] ⟨some 0, none, none, none⟩
        [⟨some 32400, some 36000, false⟩] 0).suggested_blocks.Pairwise BlkDisjoint ∧
      ∀ x ∈ (schedule_steps_into_blocks [⟨"s", 60, none⟩] ⟨some 0, none, none, none⟩
          [⟨some 32400, some 36000, false⟩] 0).suggested_blocks,
        ∀ b ∈ [(⟨some 32400, some 36000, false⟩ : RawBlock)],
          BlkRawDisjoint (dateOf (schedDay ⟨some 0, none, none, none⟩ 0)) x b) :=
  ⟨rfl, C3_free_mode_no_new_overlap [⟨"s", 60, none⟩] ⟨some 0, none, none, none⟩
    [⟨some 32400, some 36000, false⟩] 0 rfl⟩

/-- C4 counterexample: the claim as stated fails. For a target whose
stored end is missing and a request carrying only `extend_minutes = 30`,
the resolution leaves the end missing, but the call does not fail with
the validation error: it fails with the uncaught TypeError of adding a
timedelta to `None` (an HTTP 500 crash, not the 400 rejection). No
mutation is applied either way. -/
theorem C4_counterexample :
    adjust_block ⟨0, none, none, some 30⟩ [⟨0, some 32400, none, false⟩]
      = ⟨[], some AdjustError.typeError⟩ ∧
    AdjustError.typeError ≠ AdjustError.invalidTimes :=
  ⟨by decide, by decide⟩

/-- C4 witness: a target with a missing stored end and a request with no
override and no extension resolves to a missing end and is rejected with
no mutation. -/
theorem C4_witness :
    (List.find? (fun b => b.id == (⟨0, none, none, none⟩ : AdjustInput).block_id)
        [(⟨0, some 32400, none, false⟩ : StoredBlock)]
      = some ⟨0, some 32400, none, false⟩) ∧
    (resolvedStart ⟨0, none, none, none⟩ ⟨0, some 32400, none, false⟩ = none ∨
      resolvedEnd ⟨0, none, none, none⟩ ⟨0, some 32400, none, false⟩ = none) ∧
    ((adjust_block ⟨0, none, none, none⟩ [⟨0, some 32400, none, false⟩]).mutations
        = [] ∧
      ((adjust_block ⟨0, none, none, none⟩
          [⟨0, some 32400, none, false⟩]).error = some AdjustError.invalidTimes ∨
       (adjust_block ⟨0, none, none, none⟩
          [⟨0, some 32400, none, false⟩]).error = some AdjustError.typeError)) :=
  ⟨by decide, Or.inr rfl,
   C4_missing_endpoint_rejected ⟨0, none, none, none⟩
     [⟨0, some 32400, none, false⟩] ⟨0, some 32400, none, false⟩
     (by decide) (Or.inr rfl)⟩

/-- C5 counterexample: the claim as stated fails. Extending the target
10:00-11:00 to end 11:30 cascades the movable block 10:30:00-11:00:30,
whose original length is 1830 seconds; the cascaded copy is 11:30-12:00,
1800 seconds long, so the duration is not preserved exactly. -/
theorem C5_counterexample :
    adjust_block ⟨0, none, some 41400, none⟩
        [⟨0, some 36000, some 39600, false⟩, ⟨1, some 37800, some 39630, false⟩]
      = ⟨[⟨0, 36000, 41400⟩, ⟨1, 41400, 43200⟩], none⟩ ∧
    (43200 : Int) - 41400 ≠ 39630 - 37800 :=
  ⟨by decide, by decide⟩

/-- C5 (amended): every cascaded (non-target) mutation preserves its
source block's duration only up to rounding down to whole minutes — the
new length is `60 * ((end - start) / 60)` of the original parsed
interval — and it is preserved exactly whenever the original length is a
whole number of minutes. -/
theorem C5_cascade_duration_truncated (inp : AdjustInput) (store : List StoredBlock) :
    ∀ m ∈ (adjust_block inp store).mutations, m.id ≠ inp.block_id →
      ∃ c ∈ store, c.fixed = false ∧ m.id = c.id ∧ ∃ be, c.end_iso = some be ∧
        m.new_end - m.new_start = ((be - parse_dt c) / 60) * 60 ∧
        ((60 : Int) ∣ be - parse_dt c →
          m.new_end - m.new_start = be - parse_dt c) := by
  intro m hm hne
  rcases adjust_block_mutations inp store m hm with h |
    ⟨c, hc, hfix, _, hid, be, hbe, hlen⟩
  · exact absurd h hne
  · refine ⟨c, hc, hfix, hid, be, hbe, hlen, fun hdvd => ?_⟩
    rw [hlen, Int.ediv_mul_cancel hdvd]

/-- C5 witness: Example 4 of the design: moving the target to end 10:00
cascades the movable 09:15-09:45 block to 10:00-10:30; the cascade
mutation satisfies the amended duration property. -/
theorem C5_witness :
    (⟨1, 36000, 37800⟩ : Mutation) ∈ (adjust_block ⟨0, none, some 36000, none⟩
        [⟨0, some 32400, some 34200, false⟩, ⟨1, some 33300, some 35100, false⟩]).mutations ∧
    (⟨1, 36000, 37800⟩ : Mutation).id ≠ (⟨0, none, some 36000, none⟩ : AdjustInput).block_id ∧
    (∃ c ∈ [(⟨0, some 32400, some 34200, false⟩ : StoredBlock),
            ⟨1, some 33300, some 35100, false⟩],
      c.fixed = false ∧ (⟨1, 36000, 37800⟩ : Mutation).id = c.id ∧
      ∃ be, c.end_iso = some be ∧
        (⟨1, 36000, 37800⟩ : Mutation).new_end - (⟨1, 36000, 37800⟩ : Mutation).new_start
          = ((be - parse_dt c) / 60) * 60 ∧
        ((60 : Int) ∣ be - parse_dt c →
          (⟨1, 36000, 37800⟩ : Mutation).new_end
              - (⟨1, 36000, 37800⟩ : Mutation).new_start
            = be - parse_dt c)) :=
  ⟨by decide, by decide,
   C5_cascade_duration_truncated ⟨0, none, some 36000, none⟩
     [⟨0, some 32400, some 34200, false⟩, ⟨1, some 33300, some 35100, false⟩]
     ⟨1, 36000, 37800⟩ (by decide) (by decide)⟩

/-- C6 counterexample: the claim as stated fails, because the explicit
target of an adjust request is moved even when it is fixed: adjusting
the fixed block 10:00-11:00 to 12:00-13:00 writes exactly that
mutation. -/
theorem C6_counterexample :
    adjust_block ⟨0, some 43200, some 46800, none⟩ [⟨0, some 36000, some 39600, true⟩]
      = ⟨[⟨0, 43200, 46800⟩], none⟩ ∧
    (⟨0, some 36000, some 39600, true⟩ : StoredBlock).fixed = true ∧
    (43200 : Int) ≠ 36000 :=
  ⟨by decide, rfl, by decide⟩

/-- C6 (amended): a fixed block that is not itself the target of the
adjust request is never relocated: assuming store ids are distinct (as
Mongo `_id`s are), no written mutation carries its id. -/
theorem C6_fixed_nontarget_never_moved (inp : AdjustInput) (store : List StoredBlock)
    (hnodup : (store.map StoredBlock.id).Nodup) (b : StoredBlock) (hb : b ∈ store)
    (hfix : b.fixed = true) (hid : b.id ≠ inp.block_id) :
    ∀ m ∈ (adjust_block inp store).mutations, m.id ≠ b.id := by
  intro m hm
  rcases adjust_block_mutations inp store m hm with h |
    ⟨c, hc, hcfix, _, hcid, _⟩
  · rw [h]
    exact fun hcontra => hid hcontra.symm
  · rw [hcid]
    intro hceq
    have hcb : c = b := List.inj_on_of_nodup_map hnodup hc hb hceq
    rw [hcb, hfix] at hcfix
    cases hcfix

/-- C6 witness: extending the movable target 09:00-10:00 to end 11:30
over a store that also holds the fixed block 09:30-09:50 (which overlaps
the new interval) writes no mutation for the fixed block. -/
theorem C6_witness :
    (([(⟨0, some 32400, some 36000, false⟩ : StoredBlock),
        ⟨2, some 34200, some 35400, true⟩].map StoredBlock.id).Nodup ∧
      (⟨2, some 34200, some 35400, true⟩ : StoredBlock) ∈
        [(⟨0, some 32400, some 36000, false⟩ : StoredBlock),
         ⟨2, some 34200, some 35400, true⟩] ∧
      (⟨2, some 34200, some 35400, true⟩ : StoredBlock).fixed = true ∧
      (⟨2, some 34200, some 35400, true⟩ : StoredBlock).id
        ≠ (⟨0, none, some 41400, none⟩ : AdjustInput).block_id) ∧
    (∀ m ∈ (adjust_block ⟨0, none, some 41400, none⟩
        [⟨0, some 32400, some 36000, false⟩, ⟨2, some 34200, some 35400, true⟩]).mutations,
      m.id ≠ (⟨2, some 34200, some 35400, true⟩ : StoredBlock).id) :=
  ⟨⟨by decide, by decide, rfl, by decide⟩,
   C6_fixed_nontarget_never_moved ⟨0, none, some 41400, none⟩
     [⟨0, some 32400, some 36000, false⟩, ⟨2, some 34200, some 35400, true⟩]
     (by decide) ⟨2, some 34200, some 35400, true⟩ (by decide) rfl (by decide)⟩

/-- C7: in fixed mode with an end bound, every step is placed
back-to-back from the start cursor regardless of overflow, and the
conflict list holds exactly one window message per step whose computed
end exceeds the bound; in particular, with start 09:00, end 10:00 and
two 40-minute steps, the blocks 09:00-09:40 and 09:40-10:20 are both
returned together with exactly one conflict. -/
theorem C7_fixed_mode_overflow_policy (steps : List Step) (base : BaseInfo)
    (existing : List RawBlock) (now : Int) (c endB : Int)
    (hs : iso_for base.date base.start_time = some c)
    (he : iso_for base.date base.end_time = some endB) :
    ((schedule_steps_into_blocks steps base existing now).suggested_blocks.map
        (fun b => (b.start_iso, b.end_iso)) = fixedIntervals c steps ∧
      (schedule_steps_into_blocks steps base existing now).conflicts
        = List.replicate ((cumEnds c steps).countP (fun t => decide (endB < t)))
            windowConflictMsg) ∧
    ((schedule_steps_into_blocks [⟨"A", 40, none⟩, ⟨"B", 40, none⟩]
          ⟨some 0, some 32400, some 36000, none⟩ [] 0).suggested_blocks
        = [⟨"A", none, 32400, 34800, 40, "geplant", true⟩,
           ⟨"B", none, 34800, 37200, 40, "geplant", true⟩] ∧
      (schedule_steps_into_blocks [⟨"A", 40, none⟩, ⟨"B", 40, none⟩]
          ⟨some 0, some 32400, some 36000, none⟩ [] 0).conflicts
        = [windowConflictMsg]) := by
  constructor
  · have h := schedLoop_fixed_char base existing (schedDay base now) endB steps c [] []
    simp only [schedule_steps_into_blocks, hs, he]
    simpa using h
  · exact ⟨by decide, by decide⟩

/-- C7 witness: the 09:00/10:00 two-step example itself discharges the
hypotheses of the fixed-mode theorem. -/
theorem C7_witness :
    iso_for (some 0) (some 32400) = some 32400 ∧
    iso_for (some 0) (some 36000) = some 36000 ∧
    (((schedule_steps_into_blocks [⟨"A", 40, none⟩, ⟨"B", 40, none⟩]
          ⟨some 0, some 32400, some 36000, none⟩ [] 0).suggested_blocks.map
          (fun b => (b.start_iso, b.end_iso))
        = fixedIntervals 32400 [⟨"A", 40, none⟩, ⟨"B", 40, none⟩] ∧
      (schedule_steps_into_blocks [⟨"A", 40, none⟩, ⟨"B", 40, none⟩]
          ⟨some 0, some 32400, some 36000, none⟩ [] 0).conflicts
        = List.replicate ((cumEnds 32400 [⟨"A", 40, none⟩, ⟨"B", 40, none⟩]).countP
            (fun t => decide ((36000 : Int) < t))) windowConflictMsg) ∧
     ((schedule_steps_into_blocks [⟨"A", 40, none⟩, ⟨"B", 40, none⟩]
          ⟨some 0, some 32400, some 36000, none⟩ [] 0).suggested_blocks
        = [⟨"A", none, 32400, 34800, 40, "geplant", true⟩,
           ⟨"B", none, 34800, 37200, 40, "geplant", true⟩] ∧
      (schedule_steps_into_blocks [⟨"A", 40, none⟩, ⟨"B", 40, none⟩]
          ⟨some 0, some 32400, some 36000, none⟩ [] 0).conflicts
        = [windowConflictMsg])) :=
  ⟨rfl, rfl,
   C7_fixed_mode_overflow_policy [⟨"A", 40, none⟩, ⟨"B", 40, none⟩]
     ⟨some 0, some 32400, some 36000, none⟩ [] 0 32400 36000 rfl rfl⟩

/-- C8: determinism. Both the scheduler and the free-slot finder are
pure functions of their explicit inputs (steps, base info, existing
blocks, and the passed-in now), so two runs on equal inputs are equal;
moreover, when a date is given, the output does not depend on the wall
clock at all. -/
theorem C8_determinism :
    (∀ (steps : List Step) (base : BaseInfo) (existing : List RawBlock) (now : Int),
      schedule_steps_into_blocks steps base existing now
        = schedule_steps_into_blocks steps base existing now) ∧
    (∀ (day : Int) (existing : List RawBlock) (durMin : Int),
      find_free_slots day existing durMin = find_free_slots day existing durMin) ∧
    (∀ (steps : List Step) (base : BaseInfo) (existing : List RawBlock)
        (now1 now2 d : Int), base.date = some d →
      schedule_steps_into_blocks steps base existing now1
        = schedule_steps_into_blocks steps base existing now2) := by
  refine ⟨fun _ _ _ _ => rfl, fun _ _ _ => rfl, ?_⟩
  intro steps base existing now1 now2 d hd
  simp [schedule_steps_into_blocks, schedDay, hd]

/-- C8 witness: with the date given, two runs at different wall-clock
values agree. -/
theorem C8_witness :
    (⟨some 0, none, none, none⟩ : BaseInfo).date = some 0 ∧
    schedule_steps_into_blocks [⟨"s", 60, none⟩] ⟨some 0, none, none, none⟩ [] 5
      = schedule_steps_into_blocks [⟨"s", 60, none⟩] ⟨some 0, none, none, none⟩ [] 99 :=
  ⟨rfl, C8_determinism.2.2 [⟨"s", 60, none⟩] ⟨some 0, none, none, none⟩ [] 5 99 0 rfl⟩

/-- C9 counterexample: the claim as stated fails, because its premise
"start_time present" does not put the scheduler in fixed mode: the code
resolves the start with `iso_for(date, start_time)`, which also needs
the date. With a start time but no date the run is in free mode and the
suggested blocks do depend on the existing blocks. -/
theorem C9_counterexample :
    (⟨none, some 32400, none, none⟩ : BaseInfo).start_time.isSome = true ∧
    (schedule_steps_into_blocks [⟨"s", 60, none⟩] ⟨none, some 32400, none, none⟩
        [] 0).suggested_blocks
      ≠ (schedule_steps_into_blocks [⟨"s", 60, none⟩] ⟨none, some 32400, none, none⟩
          [⟨some 28800, some 72000, false⟩] 0).suggested_blocks :=
  ⟨rfl, by decide⟩

/-- C9 (amended): in fixed mode — which requires date and start_time to
both be present so that a start timestamp resolves — the whole result is
independent of the existing blocks (and of the wall clock): no overlap
with pre-existing blocks is ever detected or reported there. -/
theorem C9_fixed_mode_independent_of_existing (steps : List Step) (base : BaseInfo)
    (ex1 ex2 : List RawBlock) (now1 now2 : Int) (c : Int)
    (hfix : iso_for base.date base.start_time = some c) :
    schedule_steps_into_blocks steps base ex1 now1
      = schedule_steps_into_blocks steps base ex2 now2 := by
  rcases hd : base.date with _ | d
  · rcases ht : base.start_time with _ | t <;>
      rw [iso_for.eq_def, hd, ht] at hfix <;> cases hfix
  · rw [hd] at hfix
    simp only [schedule_steps_into_blocks, schedDay, hd, hfix]
    rw [schedLoop_fixed_indep base ex1 ex2 (d * 86400) (d * 86400)
      (iso_for (some d) base.end_time) steps c [] []]

/-- C9 witness: with date and start time both given, runs over an empty
store and over a fully-booked day coincide. -/
theorem C9_witness :
    iso_for (some 0) (some 32400) = some 32400 ∧
    schedule_steps_into_blocks [⟨"s", 60, none⟩] ⟨some 0, some 32400, none, none⟩ [] 5
      = schedule_steps_into_blocks [⟨"s", 60, none⟩] ⟨some 0, some 32400, none, none⟩
          [⟨some 28800, some 72000, false⟩] 99 :=
  ⟨rfl, C9_fixed_mode_independent_of_existing [⟨"s", 60, none⟩]
    ⟨some 0, some 32400, none, none⟩ [] [⟨some 28800, some 72000, false⟩] 5 99 32400 rfl⟩

/-- C10: the reflow imposes no working-hours bound. Extending the
movable target 19:00-19:30 by 60 minutes resolves it to 19:00-20:30;
the movable block 19:15-19:45 collides and is cascaded to start exactly
at the cursor end 20:30, ending 21:00 — after 20:00 of the affected
day. -/
theorem C10_no_working_hours_clamp :
    adjust_block ⟨0, none, none, some 60⟩
        [⟨0, some 68400, some 70200, false⟩, ⟨1, some 69300, some 71100, false⟩]
      = ⟨[⟨0, 68400, 73800⟩, ⟨1, 73800, 75600⟩], none⟩ ∧
    (⟨1, some 69300, some 71100, false⟩ : StoredBlock).fixed = false ∧
    dayEnd 68400 < 75600 :=
  ⟨by decide, rfl, by decide⟩

end CalendarPlanner
